import Mathlib

/-!
Verification of the Docker transport and log-streaming engine (Odin source,
`src/docker`).  Strings and byte slices are modelled as `List Nat` (byte
values); stateful procedures are modelled by explicit state passing.
All definitions are translated from the source files.
-/

set_option maxRecDepth 4000

namespace Harbor

/-- `starts_with pat l` : does `l` start with `pat`?  (byte-list matching
helper used to model Odin's `strings.index`.) -/
def starts_with : List Nat → List Nat → Bool
  | [], _ => true
  | _ :: _, [] => false
  | p :: ps, a :: l => (p = a) && starts_with ps l

/-- First index at which `pat` occurs in `l` (models `strings.index`). -/
def index_of_seq (pat : List Nat) : List Nat → Option Nat
  | [] => if starts_with pat [] then some 0 else none
  | a :: l => if starts_with pat (a :: l) then some 0
              else (index_of_seq pat l).map (· + 1)

/-- Does `pat` occur anywhere in `l` (models `strings.contains`)? -/
def contains_seq (pat : List Nat) (l : List Nat) : Bool :=
  (index_of_seq pat l).isSome

/-- `find_body_start` (src/unnamed/part_003): index just past the first
`\r\n\r\n`, else just past the first `\n\n`, else none (`-1`). -/
def find_body_start (response : List Nat) : Option Nat :=
  match index_of_seq [13, 10, 13, 10] response with
  | some i => some (i + 4)
  | none =>
    match index_of_seq [10, 10] response with
    | some i => some (i + 2)
    | none => none

/-- `is_hex_number` (src/unnamed/part_003): every byte is a hex digit. -/
def is_hex_number (s : List Nat) : Bool :=
  s.all fun c => (48 ≤ c && c ≤ 57) || (97 ≤ c && c ≤ 102) || (65 ≤ c && c ≤ 70)

/-- `skip_chunked_encoding_header` (src/unnamed/part_003): if the body starts
with a nonempty all-hex line terminated by `\r\n`, drop that line. -/
def skip_chunked_encoding_header (body : List Nat) : List Nat :=
  match index_of_seq [13, 10] body with
  | none => body
  | some chunk_end =>
    let potential_chunk_size := body.take chunk_end
    if is_hex_number potential_chunk_size && potential_chunk_size.length > 0 then
      body.drop (chunk_end + 2)
    else body

/-- Index of the first `[` (91) or `{` (123) byte. -/
def find_bracket : List Nat → Option Nat
  | [] => none
  | c :: l => if c = 91 ∨ c = 123 then some 0 else (find_bracket l).map (· + 1)

/-- `find_json_start` (src/unnamed/part_003): suffix from the first `[` or
`{`; the whole body when no bracket is found. -/
def find_json_start (body : List Nat) : List Nat :=
  match find_bracket body with
  | some i => body.drop i
  | none => body

/-- One character of the `find_json_end` scan (src/unnamed/part_003):
`none` means the bracket count just returned to zero (the loop returns);
`some` carries the next (depth, in_string, escape_next) scan state. -/
def json_scan_step (c : Nat) (depth : Int) (in_string escape_next : Bool) :
    Option (Int × Bool × Bool) :=
  if escape_next then some (depth, in_string, false)
  else if c = 92 then some (depth, in_string, true)
  else if c = 34 then some (depth, !in_string, false)
  else if in_string then some (depth, in_string, false)
  else if c = 91 ∨ c = 123 then some (depth + 1, in_string, false)
  else if c = 93 ∨ c = 125 then
    if depth - 1 = 0 then none else some (depth - 1, in_string, false)
  else some (depth, in_string, false)

/-- Scan of `find_json_end` (src/unnamed/part_003): index at which the
bracket-depth counter (ignoring double-quoted strings, honouring backslash
escapes) first returns to zero, or `none` if it never does. -/
def json_end_idx : List Nat → Int → Bool → Bool → Option Nat
  | [], _, _, _ => none
  | c :: rest, depth, in_string, escape_next =>
    match json_scan_step c depth in_string escape_next with
    | none => some 0
    | some (d, i, e) => (json_end_idx rest d i e).map (· + 1)

/-- `find_json_end` (src/unnamed/part_003): the body up to and including the
byte where bracket depth returns to zero; the whole body when it never does. -/
def find_json_end (json_body : List Nat) : List Nat :=
  match json_end_idx json_body 0 false false with
  | some i => json_body.take (i + 1)
  | none => json_body

/-- `extract_json_from_response` (src/unnamed/part_003): `ok = false` only
when `find_body_start` fails; otherwise the pipeline
skip-chunk-header / find-json-start / find-json-end with `ok = true`. -/
def extract_json_from_response (response : List Nat) : List Nat × Bool :=
  match find_body_start response with
  | none => ([], false)
  | some json_start =>
    let body_start := response.drop json_start
    let json_body := skip_chunked_encoding_header body_start
    let json_body := find_json_start json_body
    let json_body := find_json_end json_body
    (json_body, true)

/-- Loop body of `parse_hex` (src/unnamed/part_005): multiply the
accumulator by 16, then add the digit value only for `[0-9a-fA-F]`. -/
def parse_hex_step (result c : Nat) : Nat :=
  let result := result * 16
  if 48 ≤ c ∧ c ≤ 57 then result + (c - 48)
  else if 97 ≤ c ∧ c ≤ 102 then result + (c - 97 + 10)
  else if 65 ≤ c ∧ c ≤ 70 then result + (c - 65 + 10)
  else result

/-- `parse_hex` (src/unnamed/part_005): fold of `parse_hex_step` from 0 —
total, no error path. -/
def parse_hex (s : List Nat) : Nat :=
  s.foldl parse_hex_step 0

/-- `LOG_BUFFER_MAX_SIZE` (src/unnamed/part_005): 64 KiB. -/
def LOG_BUFFER_MAX_SIZE : Nat := 65536

/-- `LogBuffer` (src/unnamed/part_005): circular byte buffer.  The backing
array `data : [LOG_BUFFER_MAX_SIZE]u8` is modelled as a total function on
positions. -/
structure LogBuffer where
  data : Nat → Nat
  write_pos : Nat
  length : Nat

/-- A zero-initialised `LogBuffer{}`. -/
def emptyLogBuffer : LogBuffer := ⟨fun _ => 0, 0, 0⟩

/-- One iteration of the byte loop in `append_to_log_buffer`
(src/unnamed/part_005): write at the cursor, advance it modulo the capacity,
grow the logical length up to the capacity. -/
def write_byte (buf : LogBuffer) (b : Nat) : LogBuffer :=
  { data := fun j => if j = buf.write_pos then b else buf.data j
    write_pos := (buf.write_pos + 1) % LOG_BUFFER_MAX_SIZE
    length := if buf.length < LOG_BUFFER_MAX_SIZE then buf.length + 1 else buf.length }

/-- `append_to_log_buffer` (src/unnamed/part_005): early return on empty
data, otherwise write each byte in order. -/
def append_to_log_buffer (data : List Nat) (buf : LogBuffer) : LogBuffer :=
  if data.length = 0 then buf
  else data.foldl write_byte buf

/-- `get_log_content` (src/unnamed/part_005): empty when nothing buffered;
direct copy `data[:length]` before the buffer wraps; once wrapped,
`data[write_pos:]` followed by `data[:write_pos]`. -/
def get_log_content (buf : LogBuffer) : List Nat :=
  if buf.length = 0 then []
  else if buf.length < LOG_BUFFER_MAX_SIZE then
    (List.range buf.length).map buf.data
  else
    (List.range (LOG_BUFFER_MAX_SIZE - buf.write_pos)).map
        (fun k => buf.data (buf.write_pos + k))
      ++ (List.range buf.write_pos).map buf.data

/-- Index of the first `\r\n` pair at or after the current offset (the inner
scan of `process_chunked_log_data`, src/unnamed/part_005). -/
def find_crlf : List Nat → Option Nat
  | a :: b :: rest => if a = 13 ∧ b = 10 then some 0 else (find_crlf (b :: rest)).map (· + 1)
  | _ => none

/-- The chunk-consuming loop of `process_chunked_log_data`
(src/unnamed/part_005), with the loop's strictly-advancing offset rendered
as fuel-bounded recursion on the remaining data.  Returns the decoded chunk
payloads (the `frame_buffer`) and the data kept from the current offset on
(incomplete chunk header or incomplete chunk: keep everything; zero chunk
size: stop just past its header line). -/
def process_chunks_go : Nat → List Nat → List Nat × List Nat
  | 0, data => ([], data)
  | fuel + 1, data =>
    match find_crlf data with
    | none => ([], data)
    | some chunk_line_end =>
      let chunk_size := parse_hex (data.take chunk_line_end)
      if chunk_size = 0 then ([], data.drop (chunk_line_end + 2))
      else if chunk_line_end + 2 + chunk_size + 2 > data.length then ([], data)
      else
        let payload := (data.drop (chunk_line_end + 2)).take chunk_size
        let r := process_chunks_go fuel (data.drop (chunk_line_end + 2 + chunk_size + 2))
        (payload ++ r.1, r.2)

/-- Frame-header byte 4..7, big-endian, as computed in
`process_docker_frames` (src/unnamed/part_005). -/
def frame_size_of (s0 s1 s2 s3 : Nat) : Nat :=
  Nat.lor (Nat.lor (Nat.lor (s0 <<< 24) (s1 <<< 16)) (s2 <<< 8)) s3

/-- The loop of `process_docker_frames` (src/unnamed/part_005): while at
least 8 bytes remain, read the big-endian length from bytes 4..7; stop on an
incomplete frame; otherwise append the payload to the ring buffer and
advance past the frame.  Fuel-bounded recursion on the remaining data. -/
def process_docker_frames_go : Nat → List Nat → LogBuffer → LogBuffer
  | 0, _, buf => buf
  | fuel + 1, data, buf =>
    match data with
    | _ :: _ :: _ :: _ :: s0 :: s1 :: s2 :: s3 :: rest =>
      let frame_size := frame_size_of s0 s1 s2 s3
      if frame_size > rest.length then buf
      else
        process_docker_frames_go fuel (rest.drop frame_size)
          (append_to_log_buffer (rest.take frame_size) buf)
    | _ => buf

/-- `process_docker_frames` (src/unnamed/part_005). -/
def process_docker_frames (data : List Nat) (buf : LogBuffer) : LogBuffer :=
  process_docker_frames_go (data.length + 1) data buf

/-- `process_chunked_log_data` (src/unnamed/part_005): decode complete
chunks into the `frame_buffer`, process the accumulated frames when
nonempty, and keep the unprocessed tail.  Returns (kept data, buffer). -/
def process_chunked_log_data (data : List Nat) (buf : LogBuffer) : List Nat × LogBuffer :=
  let r := process_chunks_go (data.length + 1) data
  (r.2, if r.1.length > 0 then process_docker_frames r.1 buf else buf)

/-- `process_log_frames` (src/unnamed/part_005): for raw streams, just
process the frames directly; the second buffer argument of the source
procedure is unused there. -/
def process_log_frames (input_data : List Nat) (buf : LogBuffer) : LogBuffer :=
  process_docker_frames input_data buf

/-- `find_header_end` (src/unnamed/part_005): index just past the first
`\r\n\r\n`, `none` (`-1`) otherwise — no `\n\n` fallback. -/
def find_header_end : List Nat → Option Nat
  | a :: b :: c :: d :: rest =>
    if a = 13 ∧ b = 10 ∧ c = 13 ∧ d = 10 then some 4
    else (find_header_end (b :: c :: d :: rest)).map (· + 1)
  | _ => none

/-- Bytes of "Transfer-Encoding: chunked". -/
def te_chunked : List Nat :=
  [84, 114, 97, 110, 115, 102, 101, 114, 45, 69, 110, 99, 111, 100, 105, 110,
   103, 58, 32, 99, 104, 117, 110, 107, 101, 100]

/-- Bytes of "transfer-encoding: chunked". -/
def te_chunked_lower : List Nat :=
  [116, 114, 97, 110, 115, 102, 101, 114, 45, 101, 110, 99, 111, 100, 105,
   110, 103, 58, 32, 99, 104, 117, 110, 107, 101, 100]

/-- Per-iteration state of the receive loop in `log_stream_thread_proc`
(src/unnamed/part_005): the `header_skipped` and `is_chunked` flags, the
`partial_data` accumulation buffer (`pending` here), and the ring buffer. -/
structure WorkerState where
  header_skipped : Bool
  is_chunked : Bool
  pending : List Nat
  buf : LogBuffer

/-- Initial worker state: flags false, empty accumulation, empty buffer. -/
def initWorkerState : WorkerState := ⟨false, false, [], emptyLogBuffer⟩

/-- Body-processing step of the worker loop (src/unnamed/part_005): chunked
data goes through `process_chunked_log_data` (which keeps its own
unprocessed tail); raw data goes through `process_log_frames` after which
`partial_data` is cleared. -/
def worker_process_body (st : WorkerState) : WorkerState :=
  if st.is_chunked then
    let r := process_chunked_log_data st.pending st.buf
    { st with pending := r.1, buf := r.2 }
  else
    { st with buf := process_log_frames st.pending st.buf, pending := [] }

/-- One iteration of the worker's receive loop (src/unnamed/part_005) on a
successful nonempty read `chunk`: accumulate; until the header terminator is
seen, only accumulate; on first sight of the terminator record the chunked
flag from the header text and strip the header block; then process the
body. -/
def worker_step (st : WorkerState) (chunk : List Nat) : WorkerState :=
  let pending := st.pending ++ chunk
  if st.header_skipped then
    worker_process_body { st with pending := pending }
  else
    match find_header_end pending with
    | none => { st with pending := pending }
    | some header_end =>
      let header := pending.take header_end
      let chunked := contains_seq te_chunked header || contains_seq te_chunked_lower header
      worker_process_body
        { header_skipped := true, is_chunked := chunked,
          pending := pending.drop header_end, buf := st.buf }

/-- The worker's receive loop over a sequence of successful reads. -/
def run_worker (chunks : List (List Nat)) : WorkerState :=
  chunks.foldl worker_step initWorkerState

/-- `LogStreamState` (src/unnamed/part_005).  The dedicated socket is
modelled by whether an open OS handle is held (`socket_open`); the worker
thread handle by whether one is stored (`thread_created`). -/
structure LogStreamState where
  container_id : String
  container_name : String
  socket_open : Bool
  running : Bool
  thread_created : Bool
  buffer : LogBuffer

/-- The zero-initialised global `log_stream` state. -/
def initLogStream : LogStreamState := ⟨"", "", false, false, false, emptyLogBuffer⟩

/-- `is_log_stream_active` (src/unnamed/part_005). -/
def is_log_stream_active (st : LogStreamState) : Bool := st.running

/-- `get_log_container_name` (src/unnamed/part_005). -/
def get_log_container_name (st : LogStreamState) : String := st.container_name

/-- `stop_log_stream` (src/unnamed/part_005): early return when not
running; otherwise clear the running flag, close the dedicated socket, join
and destroy the thread, and delete/clear both strings. -/
def stop_log_stream (st : LogStreamState) : LogStreamState :=
  if st.running = false then st
  else
    { st with
        running := false
        socket_open := false
        thread_created := false
        container_id := ""
        container_name := "" }

/-- Environment of one `start_log_stream` call: whether
`create_docker_connection` succeeds and whether `thread.create` succeeds. -/
structure StartEnv where
  sock_ok : Bool
  thread_ok : Bool

/-- `start_log_stream` (src/unnamed/part_005): stop any running stream;
open the dedicated socket (failure returns false with state untouched);
store the cloned id/name, the socket, running=true and a fresh buffer;
create the worker thread (failure closes the socket, clears running and
returns false — the stored strings are not cleared); start the thread. -/
def start_log_stream (st : LogStreamState) (env : StartEnv)
    (container_id container_name : String) : LogStreamState × Bool :=
  let st := if st.running then stop_log_stream st else st
  if env.sock_ok = false then (st, false)
  else
    let st := { st with
                  container_id := container_id
                  container_name := container_name
                  socket_open := true
                  running := true
                  buffer := emptyLogBuffer }
    if env.thread_ok = false then
      ({ st with thread_created := false, socket_open := false, running := false }, false)
    else
      ({ st with thread_created := true }, true)

/-- Behaviour of the environment during one attempt of `send_http_request`
(src/src/docker/terminal_windows.odin): whether opening a fresh connection
would succeed, whether `send_data` succeeds, and the successful reads of the
receive loop (which always ends with a failed/zero read). -/
structure AttemptEnv where
  connect_ok : Bool
  send_ok : Bool
  recv_chunks : List (List Nat)

/-- One attempt of `send_http_request`: `ensure_connection` reuses an
established connection or opens a new one; `send_data` resets the global
connection on failure (src/src/docker/socket.odin); the receive loop
accumulates until a read fails — that final failed `receive_data` also
resets the connection; zero accumulated bytes is a failure.  Returns the
established-flag after the attempt and the response on success. -/
def http_attempt (established : Bool) (e : AttemptEnv) : Bool × Option (List Nat) :=
  if established = false ∧ e.connect_ok = false then (false, none)
  else if e.send_ok = false then (false, none)
  else
    let response := e.recv_chunks.flatten
    if response.length = 0 then (false, none)
    else (false, some response)

/-- `send_http_request` (src/src/docker/terminal_windows.odin): the
`for attempt in 0..<2` loop — a failed first attempt resets the connection
and retries exactly once; a failed second attempt returns failure. -/
def send_http_request (established : Bool) (env : Nat → AttemptEnv) : List Nat × Bool :=
  match http_attempt established (env 0) with
  | (_, some r) => (r, true)
  | (est, none) =>
    match http_attempt est (env 1) with
    | (_, some r) => (r, true)
    | (_, none) => ([], false)

/-- Bytes of the chunked scenario input `"5\r\nhello\r\n0\r\n\r\n"`. -/
def c3_input : List Nat :=
  [53, 13, 10, 104, 101, 108, 108, 111, 13, 10, 48, 13, 10, 13, 10]

/-- Bytes of `"d\r\n"` ++ frame header {0,0,0,0,0,0,0,5} ++ `"hello"` ++
`"\r\n0\r\n\r\n"`: one chunk whose payload is a complete Docker frame. -/
def c3_framed_input : List Nat :=
  [100, 13, 10, 0, 0, 0, 0, 0, 0, 0, 5, 104, 101, 108, 108, 111, 13, 10,
   48, 13, 10, 13, 10]

/-- Bytes of "HTTP/1.1 200 OK\r\n\r\n" (a header block with no
Transfer-Encoding header). -/
def http_ok_header : List Nat :=
  [72, 84, 84, 80, 47, 49, 46, 49, 32, 50, 48, 48, 32, 79, 75, 13, 10, 13, 10]

/-- Bytes of `"A\n\n"` (a header block terminated only by bare-LF line
endings) followed by a body that begins with `"\r\n\r\n"` and then one
complete frame {1,0,0,0,0,0,0,5} ++ `"hello"`. -/
def lf_header_frame_input : List Nat :=
  [65, 10, 10] ++ [13, 10, 13, 10] ++ [1, 0, 0, 0, 0, 0, 0, 5, 104, 101, 108, 108, 111]

/- ------------------------------------------------------------------ -/
/- Theorems                                                            -/
/- ------------------------------------------------------------------ -/

/-- C8: `stop()` on the log stream session is idempotent: calling it when
the session is already stopped changes no session state, and after any two
consecutive `stop()` calls `isActive()` returns false. -/
theorem stop_log_stream_idempotent (st : LogStreamState) :
    (st.running = false → stop_log_stream st = st) ∧
    is_log_stream_active (stop_log_stream (stop_log_stream st)) = false := by
  constructor
  · intro h
    simp [stop_log_stream, h]
  · cases hr : st.running <;>
      simp [stop_log_stream, is_log_stream_active, hr]

/-- C8 witness: the idempotence theorem applied to the initial (stopped)
session state. -/
theorem stop_log_stream_idempotent_witness :
    initLogStream.running = false ∧
    stop_log_stream initLogStream = initLogStream ∧
    is_log_stream_active (stop_log_stream (stop_log_stream initLogStream)) = false :=
  ⟨rfl, (stop_log_stream_idempotent initLogStream).1 rfl,
    (stop_log_stream_idempotent initLogStream).2⟩

/-- C7 counterexample: starting from the empty session state with a socket
that opens but a worker thread that fails to spawn, `start` returns failure
with `running = false`, yet the label accessor returns the new label `"web"`
— a session field is left set, contradicting the claim that no partial
session state remains. -/
theorem start_log_stream_counterexample :
    (start_log_stream initLogStream ⟨true, false⟩ "abc123" "web").2 = false ∧
    is_log_stream_active (start_log_stream initLogStream ⟨true, false⟩ "abc123" "web").1
      = false ∧
    get_log_container_name (start_log_stream initLogStream ⟨true, false⟩ "abc123" "web").1
      = "web" ∧
    get_log_container_name (start_log_stream initLogStream ⟨true, false⟩ "abc123" "web").1
      ≠ "" := by
  refine ⟨rfl, rfl, rfl, ?_⟩
  decide

/-- C7 amended: if `start` fails because the dedicated socket cannot be
opened, it returns failure with the state untouched; if it fails because the
worker thread cannot be spawned, it returns failure with `running = false`,
the dedicated socket closed and no thread stored, but the stored resource id
and label remain set (the label accessor returns the new label). -/
theorem start_log_stream_failure (st : LogStreamState) (env : StartEnv)
    (cid cname : String) (hrun : st.running = false) :
    (env.sock_ok = false → start_log_stream st env cid cname = (st, false)) ∧
    (env.sock_ok = true → env.thread_ok = false →
      (start_log_stream st env cid cname).2 = false ∧
      ((start_log_stream st env cid cname).1).running = false ∧
      ((start_log_stream st env cid cname).1).socket_open = false ∧
      ((start_log_stream st env cid cname).1).thread_created = false ∧
      ((start_log_stream st env cid cname).1).container_id = cid ∧
      get_log_container_name (start_log_stream st env cid cname).1 = cname) := by
  constructor
  · intro hs
    simp [start_log_stream, hrun, hs]
  · intro hs ht
    simp [start_log_stream, get_log_container_name, hrun, hs, ht]

/-- C7 witness: the amended failure theorem applied to the initial state,
once with a failing socket open and once with a failing thread spawn. -/
theorem start_log_stream_failure_witness :
    initLogStream.running = false ∧
    start_log_stream initLogStream ⟨false, true⟩ "a" "b" = (initLogStream, false) ∧
    get_log_container_name (start_log_stream initLogStream ⟨true, false⟩ "a" "b").1 = "b" :=
  ⟨rfl,
    (start_log_stream_failure initLogStream ⟨false, true⟩ "a" "b" rfl).1 rfl,
    ((start_log_stream_failure initLogStream ⟨true, false⟩ "a" "b" rfl).2 rfl rfl).2.2.2.2.2⟩

/-- C6: when the first attempt's `send` fails, a second attempt on a freshly
reset connection that connects, sends and accumulates a nonempty response
makes `send_http_request` return that response with ok = true; and the
result of a call depends only on the first two attempt environments, so at
most two attempts are made. -/
theorem send_http_request_retry (established : Bool) (env : Nat → AttemptEnv) :
    ((established = true ∨ (env 0).connect_ok = true) →
      (env 0).send_ok = false →
      (env 1).connect_ok = true →
      (env 1).send_ok = true →
      ((env 1).recv_chunks.flatten).length ≠ 0 →
      send_http_request established env = ((env 1).recv_chunks.flatten, true)) ∧
    (∀ env' : Nat → AttemptEnv, env' 0 = env 0 → env' 1 = env 1 →
      send_http_request established env' = send_http_request established env) := by
  constructor
  · intro hconn hsend0 hc1 hs1 hr1
    have hr2 : ((env 1).recv_chunks.map List.length).sum ≠ 0 := by
      simpa using hr1
    rcases hconn with h | h <;>
      simp [send_http_request, http_attempt, h, hsend0, hc1, hs1, hr1, hr2]
  · intro env' h0 h1
    unfold send_http_request
    rw [h0, h1]

/-- C6 witness: the retry theorem at a concrete environment whose first
attempt's send fails and whose second attempt returns `[65, 66]`. -/
theorem send_http_request_retry_witness :
    ((fun n => if n = 0 then AttemptEnv.mk true false []
               else AttemptEnv.mk true true [[65], [66]]) 0).send_ok = false ∧
    send_http_request true
        (fun n => if n = 0 then AttemptEnv.mk true false []
                  else AttemptEnv.mk true true [[65], [66]])
      = ([65, 66], true) :=
  ⟨rfl,
    (send_http_request_retry true
        (fun n => if n = 0 then AttemptEnv.mk true false []
                  else AttemptEnv.mk true true [[65], [66]])).1
      (Or.inl rfl) rfl rfl rfl (by decide)⟩

/-- C3 counterexample: the chunked input `"5\r\nhello\r\n0\r\n\r\n"` does
not leave `"hello"` in the ring buffer — its single chunk payload `"hello"`
carries no 8-byte frame header, so frame demultiplexing emits nothing and
the ring buffer stays empty. -/
theorem chunked_hello_counterexample :
    get_log_content (process_chunked_log_data c3_input emptyLogBuffer).2 = [] ∧
    get_log_content (process_chunked_log_data c3_input emptyLogBuffer).2
      ≠ [104, 101, 108, 108, 111] := by
  decide

/-- C3 amended: the input `"5\r\nhello\r\n0\r\n\r\n"` leaves the ring
buffer empty, because its chunk payload lacks a frame header; the chunked
input whose chunk payload actually is the frame header {0,0,0,0,0,0,0,5}
followed by `"hello"` — `"d\r\n" ++ {0,0,0,0,0,0,0,5} ++ "hello" ++
"\r\n0\r\n\r\n"` — decodes to ring-buffer content `"hello"`. -/
theorem chunked_framed_hello :
    get_log_content (process_chunked_log_data c3_input emptyLogBuffer).2 = [] ∧
    get_log_content (process_chunked_log_data c3_framed_input emptyLogBuffer).2
      = [104, 101, 108, 108, 111] := by
  decide

/-- C1: on the raw (non-chunked) path the worker clears its accumulation
buffer after frame processing, so a frame split across two receives is
dropped: the first receive holds the 8-byte header (payload length 5) plus
`"he"`, the second holds `"llo"`, and nothing is ever appended to the ring
buffer — while the same bytes arriving unfragmented append `"hello"`. -/
theorem raw_partial_frame_dropped :
    get_log_content
        (run_worker [http_ok_header ++ [1, 0, 0, 0, 0, 0, 0, 5, 104, 101],
                     [108, 108, 111]]).buf = [] ∧
    get_log_content
        (run_worker [http_ok_header ++
            [1, 0, 0, 0, 0, 0, 0, 5, 104, 101, 108, 108, 111]]).buf
      = [104, 101, 108, 108, 111] := by
  decide

/-- Helper: when a line contains no `\r`, the first `\r\n` of
`line ++ "\r\n" ++ rest` sits exactly at the end of the line. -/
theorem find_crlf_boundary (line rest : List Nat) (h : 13 ∉ line) :
    find_crlf (line ++ 13 :: 10 :: rest) = some line.length := by
  induction line with
  | nil => simp [find_crlf]
  | cons c t ih =>
    have hc : ¬(c = 13) := fun hh => h (hh ▸ List.mem_cons_self c t)
    have ht : 13 ∉ t := fun hm => h (List.mem_cons_of_mem c hm)
    cases t with
    | nil => simp [find_crlf, hc]
    | cons d u =>
      have := ih ht
      rw [List.cons_append]
      rw [List.cons_append] at this ⊢
      simp only [find_crlf, hc, false_and, if_false, this]
      simp

/-- C9: the chunk-size parser is total and never fails: appending any
character multiplies the accumulator by 16 and adds its digit value, zero
for a character outside `[0-9a-fA-F]`; a line with no valid hex digit
parses to 0; and a chunk-size line parsing to 0 makes the chunk decoder
stop (end-of-transmission), consuming only that line and appending
nothing. -/
theorem parse_hex_total (s : List Nat) :
    (∀ c, parse_hex (s ++ [c]) =
      16 * parse_hex s +
        (if 48 ≤ c ∧ c ≤ 57 then c - 48
         else if 97 ≤ c ∧ c ≤ 102 then c - 97 + 10
         else if 65 ≤ c ∧ c ≤ 70 then c - 65 + 10
         else 0)) ∧
    ((∀ c ∈ s, ¬((48 ≤ c ∧ c ≤ 57) ∨ (97 ≤ c ∧ c ≤ 102) ∨ (65 ≤ c ∧ c ≤ 70))) →
      parse_hex s = 0) ∧
    (∀ rest buf, 13 ∉ s → parse_hex s = 0 →
      process_chunked_log_data (s ++ 13 :: 10 :: rest) buf = (rest, buf)) := by
  refine ⟨?_, ?_, ?_⟩
  · intro c
    have hstep : parse_hex (s ++ [c]) = parse_hex_step (parse_hex s) c := by
      unfold parse_hex
      rw [List.foldl_append, List.foldl_cons, List.foldl_nil]
    rw [hstep]
    simp only [parse_hex_step]
    split_ifs <;> omega
  · intro hall
    induction s with
    | nil => rfl
    | cons c t ih =>
      have hc := hall c (List.mem_cons_self c t)
      have step0 : parse_hex_step 0 c = 0 := by
        unfold parse_hex_step
        split_ifs with h1 h2 h3
        · exact absurd (Or.inl h1) hc
        · exact absurd (Or.inr (Or.inl h2)) hc
        · exact absurd (Or.inr (Or.inr h3)) hc
        · rfl
      have ht : ∀ x ∈ t, ¬((48 ≤ x ∧ x ≤ 57) ∨ (97 ≤ x ∧ x ≤ 102) ∨ (65 ≤ x ∧ x ≤ 70)) :=
        fun x hx => hall x (List.mem_cons_of_mem c hx)
      show List.foldl parse_hex_step 0 (c :: t) = 0
      rw [List.foldl_cons, step0]
      exact ih ht
  · intro rest buf h13 hzero
    unfold process_chunked_log_data
    have hcrlf := find_crlf_boundary s rest h13
    have htake : (s ++ 13 :: 10 :: rest).take s.length = s :=
      List.take_left s (13 :: 10 :: rest)
    have hdrop : (s ++ 13 :: 10 :: rest).drop (s.length + 2) = rest := by
      rw [← List.drop_drop, List.drop_left]
      rfl
    simp only [process_chunks_go, hcrlf, htake, hzero, if_pos rfl, hdrop]
    simp

/-- C9 witness: the parser theorem at concrete inputs — `"zz"` (no hex
digit) parses to 0; a `"z"` chunk-size line makes the decoder stop; `'Z'`
appended to `"5"` contributes digit 0. -/
theorem parse_hex_total_witness :
    parse_hex [122, 122] = 0 ∧
    process_chunked_log_data ([122] ++ 13 :: 10 :: [65, 66]) emptyLogBuffer
      = ([65, 66], emptyLogBuffer) ∧
    parse_hex ([53] ++ [90]) =
      16 * parse_hex [53] +
        (if 48 ≤ 90 ∧ 90 ≤ 57 then 90 - 48
         else if 97 ≤ 90 ∧ 90 ≤ 102 then 90 - 97 + 10
         else if 65 ≤ 90 ∧ 90 ≤ 70 then 90 - 65 + 10
         else 0) :=
  ⟨(parse_hex_total [122, 122]).2.1 (by decide),
   (parse_hex_total [122]).2.2 [65, 66] emptyLogBuffer (by decide) (by decide),
   (parse_hex_total [53]).1 90⟩

/-- Helper: a list shorter than 4 bytes contains no 4-byte window equal to
the header terminator. -/
theorem short_no_terminator (data : List Nat) (hlen : data.length < 4) :
    ∀ i < data.length, (data.drop i).take 4 ≠ [13, 10, 13, 10] := by
  intro i hi heq
  have hl := congrArg List.length heq
  simp [List.length_take, List.length_drop] at hl
  omega

/-- Helper: `find_header_end` returns `none` exactly when no 4-byte window
of the data equals `\r\n\r\n`. -/
theorem find_header_end_none_iff (data : List Nat) :
    find_header_end data = none ↔
      ∀ i < data.length, (data.drop i).take 4 ≠ [13, 10, 13, 10] := by
  induction data with
  | nil =>
    constructor
    · intro _
      exact short_no_terminator [] (by simp)
    · intro _
      rfl
  | cons a tail ih =>
    cases tail with
    | nil =>
      constructor
      · intro _
        exact short_no_terminator [a] (by simp)
      · intro _
        rfl
    | cons b t2 =>
      cases t2 with
      | nil =>
        constructor
        · intro _
          exact short_no_terminator [a, b] (by simp)
        · intro _
          rfl
      | cons c t3 =>
        cases t3 with
        | nil =>
          constructor
          · intro _
            exact short_no_terminator [a, b, c] (by simp)
          · intro _
            rfl
        | cons d rest =>
          by_cases hpat : a = 13 ∧ b = 10 ∧ c = 13 ∧ d = 10
          · constructor
            · intro h
              exfalso
              simp [find_header_end, hpat] at h
            · intro h
              exfalso
              obtain ⟨h1, h2, h3, h4⟩ := hpat
              subst h1; subst h2; subst h3; subst h4
              exact h 0 (by simp) rfl
          · have heq : find_header_end (a :: b :: c :: d :: rest)
                = (find_header_end (b :: c :: d :: rest)).map (· + 1) := by
              simp [find_header_end, hpat]
            rw [heq, Option.map_eq_none', ih]
            constructor
            · intro h i hi hw
              cases i with
              | zero =>
                apply hpat
                simp at hw
                exact ⟨hw.1, hw.2.1, hw.2.2.1, hw.2.2.2⟩
              | succ j =>
                refine h j ?_ hw
                simp only [List.length_cons] at hi ⊢
                omega
            · intro h i hi hw
              refine h (i + 1) ?_ hw
              simp only [List.length_cons] at hi ⊢
              omega

/-- Helper: while the header terminator has not appeared anywhere in the
accumulated-plus-future bytes, the worker only accumulates: flags stay
false, the buffer is untouched. -/
theorem run_worker_no_header (chunks : List (List Nat)) :
    ∀ st : WorkerState, st.header_skipped = false →
    (∀ i < (st.pending ++ chunks.flatten).length,
      ((st.pending ++ chunks.flatten).drop i).take 4 ≠ [13, 10, 13, 10]) →
    chunks.foldl worker_step st = { st with pending := st.pending ++ chunks.flatten } := by
  induction chunks with
  | nil =>
    intro st _ _
    simp
  | cons c cs ih =>
    intro st hskip hno
    have hfull : st.pending ++ (c :: cs).flatten
        = (st.pending ++ c) ++ cs.flatten := by
      simp [List.append_assoc]
    have hfind : find_header_end (st.pending ++ c) = none := by
      rw [find_header_end_none_iff]
      intro i hi hw
      have hlw := congrArg List.length hw
      rw [List.length_take, List.length_drop] at hlw
      simp only [List.length_cons, List.length_nil] at hlw
      have hdl : ((st.pending ++ c).drop i).length
          = (st.pending ++ c).length - i := List.length_drop i (st.pending ++ c)
      refine hno i ?_ ?_
      · rw [hfull, List.length_append]
        omega
      · rw [hfull, List.drop_append_of_le_length (by omega),
          List.take_append_of_le_length (by omega), hw]
    have hstep : worker_step st c = { st with pending := st.pending ++ c } := by
      simp [worker_step, hskip, hfind]
    rw [List.foldl_cons, hstep]
    have hno' : ∀ i < (({ st with pending := st.pending ++ c } :
        WorkerState).pending ++ cs.flatten).length,
        ((({ st with pending := st.pending ++ c } :
          WorkerState).pending ++ cs.flatten).drop i).take 4 ≠ [13, 10, 13, 10] := by
      intro i hi hw
      refine hno i ?_ ?_
      · simpa [List.flatten_cons, List.append_assoc] using hi
      · rw [show st.pending ++ (c :: cs).flatten = (st.pending ++ c) ++ cs.flatten by
          simp [List.flatten_cons, List.append_assoc]]
        exact hw
    have hrec := ih { st with pending := st.pending ++ c } hskip hno'
    rw [hrec]
    simp [List.flatten_cons, List.append_assoc]

/-- C10 counterexample: the streamed response `"A\n\n"` ++ `"\r\n\r\n"` ++
frame {1,0,0,0,0,0,0,5} ++ `"hello"` has its header block terminated only
by bare-LF line endings (the block `"A\n\n"` contains no carriage return),
yet the worker does strip — at the body's `\r\n\r\n` — then decodes the
frame and appends `"hello"` to the ring buffer, contradicting the claim
that on such responses the worker never strips the headers and nothing is
ever appended. -/
theorem lf_header_with_crlf_body_decodes :
    (∀ c ∈ [65, 10, 10], c ≠ 13) ∧
    (run_worker [lf_header_frame_input]).header_skipped = true ∧
    get_log_content (run_worker [lf_header_frame_input]).buf
      = [104, 101, 108, 108, 111] := by
  decide

/-- C10 amended: the worker's header detection recognizes only the exact
four-byte terminator `\r\n\r\n` and has no `\n\n` fallback, so a bare-LF
header terminator is never honoured as such; the worker never strips
headers, never begins chunk or frame decoding, and never appends to the
ring log buffer exactly on streams whose bytes never contain `\r\n\r\n`
anywhere (when a `\r\n\r\n` does occur later in the stream, the worker
strips everything before it as headers and decodes from there, as the
counterexample shows). -/
theorem lf_only_headers_never_decoded :
    (∀ data : List Nat, find_header_end data = none ↔
      ∀ i < data.length, (data.drop i).take 4 ≠ [13, 10, 13, 10]) ∧
    (∀ chunks : List (List Nat),
      (∀ i < chunks.flatten.length,
        (chunks.flatten.drop i).take 4 ≠ [13, 10, 13, 10]) →
      (run_worker chunks).header_skipped = false ∧
      (run_worker chunks).buf = emptyLogBuffer ∧
      get_log_content (run_worker chunks).buf = []) := by
  constructor
  · exact find_header_end_none_iff
  · intro chunks hno
    have h := run_worker_no_header chunks initWorkerState rfl
      (by simpa [initWorkerState] using hno)
    unfold run_worker
    rw [h]
    exact ⟨rfl, rfl, rfl⟩

/-- C10 witness: the no-decode theorem at a concrete LF-only-terminated
response `"H\n\nB"`. -/
theorem lf_only_headers_never_decoded_witness :
    (∀ i < ([[72, 10, 10, 66]] : List (List Nat)).flatten.length,
      (([[72, 10, 10, 66]] : List (List Nat)).flatten.drop i).take 4
        ≠ [13, 10, 13, 10]) ∧
    (run_worker [[72, 10, 10, 66]]).header_skipped = false ∧
    get_log_content (run_worker [[72, 10, 10, 66]]).buf = [] :=
  ⟨by decide,
   (lf_only_headers_never_decoded.2 [[72, 10, 10, 66]] (by decide)).1,
   (lf_only_headers_never_decoded.2 [[72, 10, 10, 66]] (by decide)).2.2⟩

/-- Helper: a successful scan result survives appending arbitrary bytes —
the balance index of a prefix is the balance index of the whole. -/
theorem json_end_idx_append (u : List Nat) :
    ∀ (s : List Nat) (d : Int) (i e : Bool) (k : Nat),
      json_end_idx s d i e = some k → json_end_idx (s ++ u) d i e = some k := by
  intro s
  induction s with
  | nil =>
    intro d i e k h
    exact absurd h (by simp [json_end_idx])
  | cons c rest ih =>
    intro d i e k h
    rw [List.cons_append]
    simp only [json_end_idx] at h ⊢
    cases hstep : json_scan_step c d i e with
    | none =>
      rw [hstep] at h
      exact h
    | some t =>
      obtain ⟨d', i', e'⟩ := t
      rw [hstep] at h
      dsimp only at h ⊢
      obtain ⟨k', hk', rfl⟩ := Option.map_eq_some'.1 h
      rw [ih d' i' e' k' hk']
      rfl

/-- Helper: a successful scan at index `k` happens inside the list and is
already determined by its first `k + 1` bytes. -/
theorem json_end_idx_take :
    ∀ (s : List Nat) (d : Int) (i e : Bool) (k : Nat),
      json_end_idx s d i e = some k →
      k < s.length ∧ json_end_idx (s.take (k + 1)) d i e = some k := by
  intro s
  induction s with
  | nil =>
    intro d i e k h
    exact absurd h (by simp [json_end_idx])
  | cons c rest ih =>
    intro d i e k h
    simp only [json_end_idx] at h
    cases hstep : json_scan_step c d i e with
    | none =>
      rw [hstep] at h
      obtain rfl : (0 : Nat) = k := Option.some.inj h
      constructor
      · simp
      · simp only [List.take_succ_cons, List.take_zero, json_end_idx, hstep]
    | some t =>
      obtain ⟨d', i', e'⟩ := t
      rw [hstep] at h
      obtain ⟨k', hk', rfl⟩ := Option.map_eq_some'.1 h
      obtain ⟨hlt, htake⟩ := ih d' i' e' k' hk'
      constructor
      · simp only [List.length_cons]
        omega
      · rw [List.take_succ_cons]
        simp only [json_end_idx, hstep, htake]
        rfl

/-- C2 counterexample: on the response `"HT\r\n\r\nhi"`, whose body `"hi"`
contains no opening bracket at all, `extractJson` still returns
`ok = true` (with the unprocessed body) — contradicting the claim that it
returns `ok = false` whenever no opening bracket is found. -/
theorem extract_json_ok_counterexample :
    (∀ c ∈ [72, 84, 13, 10, 13, 10, 104, 105], c ≠ 91 ∧ c ≠ 123) ∧
    extract_json_from_response [72, 84, 13, 10, 13, 10, 104, 105]
      = ([104, 105], true) := by
  decide

/-- C2 amended: `extractJson` returns `ok = false` exactly when the input
has no header/body separator (neither `\r\n\r\n` nor `\n\n`); with a
separator present it returns `ok = true` even when no bracket or no
balancing close exists; and when the bracket scan does balance, trailing
bytes after the balanced value are tolerated and excluded from the returned
substring. -/
theorem extract_json_ok_characterization :
    (∀ r : List Nat,
      (extract_json_from_response r).2 = false ↔ find_body_start r = none) ∧
    (∀ t u : List Nat, t ≠ [] →
      json_end_idx t 0 false false = some (t.length - 1) →
      find_json_end (t ++ u) = t) := by
  constructor
  · intro r
    cases h : find_body_start r with
    | none => simp [extract_json_from_response, h]
    | some i => simp [extract_json_from_response, h]
  · intro t u hne hidx
    have happ := json_end_idx_append u t 0 false false (t.length - 1) hidx
    have hlen : t.length - 1 + 1 = t.length := by
      cases t with
      | nil => exact absurd rfl hne
      | cons a l => simp
    unfold find_json_end
    rw [happ]
    dsimp only
    rw [hlen]
    exact List.take_left t u

/-- C2 witness: the characterization at `"[1]"` followed by trailing chunk
bytes `"\r\n0"`, and the ok-iff at a bracketless response. -/
theorem extract_json_ok_characterization_witness :
    (((extract_json_from_response [72, 84, 13, 10, 13, 10, 104, 105]).2 = false)
      ↔ find_body_start [72, 84, 13, 10, 13, 10, 104, 105] = none) ∧
    ([91, 49, 93] : List Nat) ≠ [] ∧
    json_end_idx [91, 49, 93] 0 false false = some 2 ∧
    find_json_end ([91, 49, 93] ++ [13, 10, 48]) = [91, 49, 93] :=
  ⟨extract_json_ok_characterization.1 [72, 84, 13, 10, 13, 10, 104, 105],
   by decide, by decide,
   extract_json_ok_characterization.2 [91, 49, 93] [13, 10, 48]
     (by decide) (by decide)⟩

/-- C4 counterexample: `extractJson` succeeds on `"A\r\n\r\n[1]"` with text
`"[1]"`, but applied to `"[1]"` itself it fails (`ok = false`) because the
text contains no header/body separator — so it is not idempotent on its own
output as claimed. -/
theorem extract_json_not_idempotent :
    extract_json_from_response ([65, 13, 10, 13, 10] ++ [91, 49, 93])
      = ([91, 49, 93], true) ∧
    extract_json_from_response [91, 49, 93] = ([], false) := by
  decide

/-- Helper: `find_bracket` finds an actual bracket: the suffix at the found
index starts with `[` or `{`. -/
theorem find_bracket_head :
    ∀ (l : List Nat) (j : Nat), find_bracket l = some j →
      ∃ c rest, l.drop j = c :: rest ∧ (c = 91 ∨ c = 123) := by
  intro l
  induction l with
  | nil =>
    intro j h
    simp [find_bracket] at h
  | cons a t ih =>
    intro j h
    simp only [find_bracket] at h
    split_ifs at h with hb
    · obtain rfl : (0 : Nat) = j := Option.some.inj h
      exact ⟨a, t, rfl, hb⟩
    · obtain ⟨j', hj', rfl⟩ := Option.map_eq_some'.1 h
      obtain ⟨c, rest, hdrop, hc⟩ := ih j' hj'
      exact ⟨c, rest, hdrop, hc⟩

/-- Helper: a body starting with an opening bracket is not mistaken for a
chunk-size line — `skip_chunked_encoding_header` leaves it unchanged. -/
theorem skip_chunked_bracket (c : Nat) (l : List Nat) (hc : c = 91 ∨ c = 123) :
    skip_chunked_encoding_header (c :: l) = c :: l := by
  unfold skip_chunked_encoding_header
  cases he : index_of_seq [13, 10] (c :: l) with
  | none => rfl
  | some e =>
    cases e with
    | zero => simp
    | succ e' =>
      have hhex : is_hex_number (c :: l.take e') = false := by
        rcases hc with rfl | rfl <;> simp [is_hex_number]
      simp [List.take_succ_cons, hhex]

/-- C4 amended: `extractJson` is idempotent only up to re-prefixing a
header terminator: whenever it succeeds on `r` via a found opening bracket
and a balancing close, running it on `"\r\n\r\n"` ++ its own output returns
that output unchanged with `ok = true` (running it on the bare output
fails, as the counterexample shows). -/
theorem extract_json_reprefix_idempotent (r : List Nat) (i j : Nat) (k : Nat)
    (hbody : find_body_start r = some i)
    (hbr : find_bracket (skip_chunked_encoding_header (r.drop i)) = some j)
    (hend : json_end_idx
      ((skip_chunked_encoding_header (r.drop i)).drop j) 0 false false = some k) :
    (extract_json_from_response r).2 = true ∧
    extract_json_from_response ([13, 10, 13, 10] ++ (extract_json_from_response r).1)
      = ((extract_json_from_response r).1, true) := by
  have hext : extract_json_from_response r
      = (find_json_end ((skip_chunked_encoding_header (r.drop i)).drop j), true) := by
    simp [extract_json_from_response, hbody, find_json_start, hbr]
  obtain ⟨hk, htake⟩ := json_end_idx_take _ 0 false false k hend
  have hfje : find_json_end ((skip_chunked_encoding_header (r.drop i)).drop j)
      = ((skip_chunked_encoding_header (r.drop i)).drop j).take (k + 1) := by
    unfold find_json_end
    rw [hend]
  obtain ⟨c, rest, hdropj, hc⟩ := find_bracket_head _ j hbr
  -- the extracted text, as a cons cell headed by the bracket
  have ht : (extract_json_from_response r).1 = c :: rest.take k := by
    rw [hext, hfje, hdropj, List.take_succ_cons]
  refine ⟨by rw [hext], ?_⟩
  -- text length is exactly k + 1
  have hlen : (((skip_chunked_encoding_header (r.drop i)).drop j).take (k + 1)).length
      = k + 1 := by
    rw [List.length_take]
    omega
  -- the scan balances exactly at the end of the extracted text
  have hidx : json_end_idx ((extract_json_from_response r).1) 0 false false = some k := by
    rw [hext, hfje]
    exact htake
  -- now run the pipeline on the re-prefixed text
  have hbody2 : extract_json_from_response
      ([13, 10, 13, 10] ++ (extract_json_from_response r).1)
      = (find_json_end (find_json_start (skip_chunked_encoding_header
          ((extract_json_from_response r).1))), true) := rfl
  rw [hbody2]
  rw [ht, skip_chunked_bracket c (rest.take k) hc]
  have hfjs : find_json_start (c :: rest.take k) = c :: rest.take k := by
    simp [find_json_start, find_bracket, hc]
  rw [hfjs]
  have hidx' : json_end_idx (c :: rest.take k) 0 false false = some k := by
    rw [← ht]
    exact hidx
  have hlen' : (c :: rest.take k).length = k + 1 := by
    rw [← ht, hext, hfje]
    exact hlen
  unfold find_json_end
  rw [hidx']
  dsimp only
  rw [← hlen', List.take_length]

/-- C4 witness: the re-prefix idempotence theorem at the concrete response
`"A\r\n\r\n[1]x"`. -/
theorem extract_json_reprefix_idempotent_witness :
    find_body_start [65, 13, 10, 13, 10, 91, 49, 93, 120] = some 5 ∧
    (extract_json_from_response
      ([13, 10, 13, 10] ++
        (extract_json_from_response [65, 13, 10, 13, 10, 91, 49, 93, 120]).1)
      = ((extract_json_from_response [65, 13, 10, 13, 10, 91, 49, 93, 120]).1, true)) :=
  ⟨by decide,
   (extract_json_reprefix_idempotent [65, 13, 10, 13, 10, 91, 49, 93, 120] 5 0 2
      (by decide) (by decide) (by decide)).2⟩

/-- Helper: the per-call append (with its empty-data early return) equals
the plain byte-by-byte fold. -/
theorem append_eq_foldl (d : List Nat) (buf : LogBuffer) :
    append_to_log_buffer d buf = d.foldl write_byte buf := by
  unfold append_to_log_buffer
  cases d with
  | nil => simp
  | cons a l => simp

/-- Helper: folding a sequence of append calls equals folding the single
flattened byte sequence. -/
theorem foldl_calls_eq (calls : List (List Nat)) :
    ∀ e : LogBuffer,
      calls.foldl (fun buf d => append_to_log_buffer d buf) e
        = calls.flatten.foldl write_byte e := by
  induction calls with
  | nil => intro e; rfl
  | cons d cs ih =>
    intro e
    rw [List.foldl_cons, append_eq_foldl, List.flatten_cons, List.foldl_append]
    exact ih _

/-- Helper: two indices less than a window of size below the modulus have
distinct residues. -/
theorem mod_ne_window (C i n : Nat) (hlt : i < n) (hwin : n - i < C) :
    i % C ≠ n % C := by
  intro h
  have hdvd : C ∣ n - i := (Nat.modEq_iff_dvd' (le_of_lt hlt)).1 h
  have := Nat.le_of_dvd (by omega) hdvd
  omega

/-- Helper: invariant of the byte-write fold from the empty buffer: the
logical length is `min n C`, the cursor is `n % C`, and each of the last
`min n C` appended bytes sits at its index modulo `C`. -/
theorem write_fold_invariant (B : List Nat) :
    (B.foldl write_byte emptyLogBuffer).length
        = min B.length LOG_BUFFER_MAX_SIZE ∧
    (B.foldl write_byte emptyLogBuffer).write_pos
        = B.length % LOG_BUFFER_MAX_SIZE ∧
    ∀ i, B.length - min B.length LOG_BUFFER_MAX_SIZE ≤ i → i < B.length →
      (B.foldl write_byte emptyLogBuffer).data (i % LOG_BUFFER_MAX_SIZE)
        = B.getD i 0 := by
  induction B using List.reverseRecOn with
  | nil =>
    refine ⟨rfl, rfl, ?_⟩
    intro i _ hlt
    simp at hlt
  | append_singleton B b ih =>
    obtain ⟨ihlen, ihwp, ihdata⟩ := ih
    rw [List.foldl_append, List.foldl_cons, List.foldl_nil]
    refine ⟨?_, ?_, ?_⟩
    · show (if (B.foldl write_byte emptyLogBuffer).length < LOG_BUFFER_MAX_SIZE
          then (B.foldl write_byte emptyLogBuffer).length + 1
          else (B.foldl write_byte emptyLogBuffer).length)
        = min (B ++ [b]).length LOG_BUFFER_MAX_SIZE
      rw [ihlen, List.length_append]
      simp only [LOG_BUFFER_MAX_SIZE, List.length_cons, List.length_nil]
      split_ifs <;> omega
    · show ((B.foldl write_byte emptyLogBuffer).write_pos + 1) % LOG_BUFFER_MAX_SIZE
        = (B ++ [b]).length % LOG_BUFFER_MAX_SIZE
      rw [ihwp, List.length_append]
      simp only [LOG_BUFFER_MAX_SIZE, List.length_cons, List.length_nil]
      omega
    · intro i hge hlt
      rw [List.length_append] at hge hlt
      simp only [List.length_cons, List.length_nil] at hge hlt
      show (if i % LOG_BUFFER_MAX_SIZE
            = (B.foldl write_byte emptyLogBuffer).write_pos then b
          else (B.foldl write_byte emptyLogBuffer).data (i % LOG_BUFFER_MAX_SIZE))
        = (B ++ [b]).getD i 0
      rw [ihwp]
      by_cases hi : i = B.length
      · subst hi
        rw [if_pos rfl, List.getD_append_right B [b] 0 B.length le_rfl]
        simp
      · have hlt' : i < B.length := by omega
        have hwin : B.length - i < LOG_BUFFER_MAX_SIZE := by
          have hminle : B.length + 1 - min (B.length + 1) LOG_BUFFER_MAX_SIZE ≤ i := hge
          simp only [LOG_BUFFER_MAX_SIZE] at hminle ⊢
          omega
        rw [if_neg (mod_ne_window LOG_BUFFER_MAX_SIZE i B.length hlt' hwin)]
        rw [List.getD_append B [b] 0 i hlt']
        refine ihdata i ?_ hlt'
        have : min (B.length + 1) LOG_BUFFER_MAX_SIZE
            ≤ min B.length LOG_BUFFER_MAX_SIZE + 1 := by
          simp only [LOG_BUFFER_MAX_SIZE]
          omega
        omega

/-- Helper: splitting one step of wrap-around indexing — the residue of the
window index `n - C + k` is `n % C + k` before the physical end of the
array and `k - (C - n % C)` after it. -/
theorem window_mod_eq (C n k : Nat) (hC : 0 < C) (hge : C ≤ n) (hk : k < C) :
    (n - C + k) % C
      = if k < C - n % C then n % C + k else k - (C - n % C) := by
  have hr : n % C < C := Nat.mod_lt _ hC
  have h1 : n - C + k = n + k - C := by omega
  have h2 : (n + k - C) % C = (n + k) % C := by
    conv_rhs => rw [show n + k = n + k - C + C by omega]
    rw [Nat.add_mod_right]
  have h3 : (n + k) % C = (n % C + k) % C := by
    rw [Nat.add_mod, Nat.mod_eq_of_lt hk]
  rw [h1, h2, h3]
  by_cases hcase : k < C - n % C
  · rw [if_pos hcase, Nat.mod_eq_of_lt (by omega)]
  · rw [if_neg hcase]
    have h4 : C ≤ n % C + k := by omega
    rw [Nat.mod_eq_sub_mod h4, Nat.mod_eq_of_lt (by omega)]
    omega

/-- Helper: snapshot of the byte-write fold — the whole sequence while it
fits, the last `LOG_BUFFER_MAX_SIZE` bytes in order once it does not. -/
theorem snapshot_of_foldl (B : List Nat) :
    get_log_content (B.foldl write_byte emptyLogBuffer)
      = if B.length ≤ LOG_BUFFER_MAX_SIZE then B
        else B.drop (B.length - LOG_BUFFER_MAX_SIZE) := by
  obtain ⟨hlen, hwp, hdata⟩ := write_fold_invariant B
  have hCpos : 0 < LOG_BUFFER_MAX_SIZE := by norm_num [LOG_BUFFER_MAX_SIZE]
  by_cases hn : B.length < LOG_BUFFER_MAX_SIZE
  · -- not yet full: direct copy
    rw [if_pos (le_of_lt hn)]
    have hmin : min B.length LOG_BUFFER_MAX_SIZE = B.length := by omega
    rw [hmin] at hlen hdata
    unfold get_log_content
    rw [hlen]
    by_cases h0 : B.length = 0
    · rw [if_pos h0]
      exact (List.length_eq_zero.1 h0).symm
    · rw [if_neg h0, if_pos hn]
      refine List.ext_getElem (by simp) ?_
      intro idx h1 h2
      rw [List.getElem_map, List.getElem_range]
      have hidx : idx < B.length := by simpa using h2
      have := hdata idx (by omega) hidx
      rw [Nat.mod_eq_of_lt (by omega)] at this
      rw [this, List.getD_eq_getElem B 0 hidx]
  · -- full: wrapped reconstruction gives the last LOG_BUFFER_MAX_SIZE bytes
    have hge : LOG_BUFFER_MAX_SIZE ≤ B.length := by omega
    have hmin : min B.length LOG_BUFFER_MAX_SIZE = LOG_BUFFER_MAX_SIZE := by omega
    rw [hmin] at hlen hdata
    have hwplt : B.length % LOG_BUFFER_MAX_SIZE < LOG_BUFFER_MAX_SIZE :=
      Nat.mod_lt _ hCpos
    unfold get_log_content
    rw [hlen, hwp]
    rw [if_neg (by omega), if_neg (by omega)]
    have houter : (if B.length ≤ LOG_BUFFER_MAX_SIZE then B
        else B.drop (B.length - LOG_BUFFER_MAX_SIZE))
        = B.drop (B.length - LOG_BUFFER_MAX_SIZE) := by
      by_cases hb : B.length ≤ LOG_BUFFER_MAX_SIZE
      · rw [if_pos hb]
        have hz : B.length - LOG_BUFFER_MAX_SIZE = 0 := by omega
        rw [hz, List.drop_zero]
      · rw [if_neg hb]
    rw [houter]
    refine List.ext_getElem ?_ ?_
    · simp only [List.length_append, List.length_map, List.length_range,
        List.length_drop]
      omega
    · intro k h1 h2
      have hk : k < LOG_BUFFER_MAX_SIZE := by
        simp only [List.length_append, List.length_map, List.length_range] at h1
        omega
      rw [List.getElem_drop]
      have hinv := hdata (B.length - LOG_BUFFER_MAX_SIZE + k) (by omega) (by omega)
      rw [List.getD_eq_getElem B 0 (by omega)] at hinv
      rw [window_mod_eq LOG_BUFFER_MAX_SIZE B.length k hCpos hge hk] at hinv
      by_cases hcase : k < LOG_BUFFER_MAX_SIZE - B.length % LOG_BUFFER_MAX_SIZE
      · rw [if_pos hcase] at hinv
        rw [List.getElem_append_left (by
          simp only [List.length_map, List.length_range]
          exact hcase)]
        rw [List.getElem_map, List.getElem_range]
        exact hinv
      · rw [if_neg hcase] at hinv
        rw [List.getElem_append_right (by
          simp only [List.length_map, List.length_range]
          omega)]
        rw [List.getElem_map, List.getElem_range]
        simp only [List.length_map, List.length_range]
        exact hinv

/-- C5: for every finite sequence of append calls starting from the empty
ring buffer, the snapshot is the concatenation of all appended bytes when
the total fits in the 64 KiB capacity, and exactly the last 64 KiB of
appended bytes, oldest first, when it does not. -/
theorem log_buffer_snapshot (calls : List (List Nat)) :
    get_log_content (calls.foldl (fun buf d => append_to_log_buffer d buf) emptyLogBuffer)
      = if calls.flatten.length ≤ LOG_BUFFER_MAX_SIZE then calls.flatten
        else calls.flatten.drop (calls.flatten.length - LOG_BUFFER_MAX_SIZE) := by
  rw [foldl_calls_eq]
  exact snapshot_of_foldl calls.flatten

end Harbor
